import Mathlib

/-!
Verification development for the RPMD teaching notebook (`4-rpmd.ipynb`).

The notebook's computational core consists of
* a velocity-Verlet integrator for the unit harmonic oscillator (Exercise 2),
  embedded here over `ℚ` (the loop body is plain field arithmetic), and
* eigenstate-sum evaluators for the standard and Kubo-transformed quantum
  time-correlation functions (Exercise 1), embedded over `ℝ`/`ℂ`.

Python integers are embedded as `ℕ`/`ℤ`, double-precision floats as exact
`ℚ`/`ℝ` values, and the `IndexError` raised by `Cqq_kubo` on a one-point
quadrature grid is embedded by an `Option` result.
-/

namespace RPMD

/-! ## Classical trajectory integrator (notebook Exercise 2)

Source cell:
```
def f(q):
    return -q
```
-/

/-- Force acting on the simple harmonic oscillator, `f(q) = -q`. -/
def f (q : ℚ) : ℚ := -q

/-- One velocity-Verlet step on phase-space state `(p, q)`, translating the
loop body
```
p = p + (f(q)) * dt / 2
q = q + p * dt
p = p + (f(q)) * dt / 2
```
(half-kick, drift, half-kick with the updated position). -/
def vvStep (dt : ℚ) (s : ℚ × ℚ) : ℚ × ℚ :=
  let p1 := s.1 + f s.2 * dt / 2
  let q1 := s.2 + p1 * dt
  let p2 := p1 + f q1 * dt / 2
  (p2, q1)

/-- One pass of the trajectory loop: advance the state and append the
post-step momentum, position, and force to the three output lists
(`plist.append(p); qlist.append(q); flist.append(f(q))`). -/
def vvIter (dt : ℚ) (st : (ℚ × ℚ) × List ℚ × List ℚ × List ℚ) :
    (ℚ × ℚ) × List ℚ × List ℚ × List ℚ :=
  let s := vvStep dt st.1
  (s, st.2.1 ++ [s.1], st.2.2.1 ++ [s.2], st.2.2.2 ++ [f s.2])

/-- The trajectory loop `for i in range(steps)` run for `N` iterations from
`(p0, q0)` with empty output lists. -/
def vvRun (p0 q0 dt : ℚ) (N : ℕ) : (ℚ × ℚ) × List ℚ × List ℚ × List ℚ :=
  (vvIter dt)^[N] ((p0, q0), [], [], [])

/-- Recorded momenta `plist` of a forward run. -/
def plist (p0 q0 dt : ℚ) (N : ℕ) : List ℚ := (vvRun p0 q0 dt N).2.1

/-- Recorded positions `qlist` of a forward run. -/
def qlist (p0 q0 dt : ℚ) (N : ℕ) : List ℚ := (vvRun p0 q0 dt N).2.2.1

/-- Recorded forces `flist` of a forward run. -/
def flist (p0 q0 dt : ℚ) (N : ℕ) : List ℚ := (vvRun p0 q0 dt N).2.2.2

/-- Step count of the notebook's trajectory cell, `steps = int(tmax / dt)`
(`int` truncates toward zero; a negative count makes `range` empty, which
`Int.toNat` reproduces). -/
def nsteps (tmax dt : ℚ) : ℕ := (⌊tmax / dt⌋).toNat

/-- Time-reversed run of the notebook's time-reversibility cell: it restarts
the same loop from `p = -traj_ens[j]['plist'][-1]`, `q = traj_ens[j]['qlist'][-1]`
for the same `steps` and `dt`. -/
def invRun (p0 q0 dt : ℚ) (N : ℕ) : (ℚ × ℚ) × List ℚ × List ℚ × List ℚ :=
  vvRun (-(plist p0 q0 dt N).getLastD 0) ((qlist p0 q0 dt N).getLastD 0) dt N

/-- Recorded positions of the time-reversed run. -/
def inv_qlist (p0 q0 dt : ℚ) (N : ℕ) : List ℚ := (invRun p0 q0 dt N).2.2.1

/-- Total energy `p^2/2 + q^2/2` of a phase-space state (unit mass, unit
stiffness), as used in the spec's conservation property. -/
def energy (s : ℚ × ℚ) : ℚ := s.1 ^ 2 / 2 + s.2 ^ 2 / 2

/-! ### Characterization of the recorded lists -/

lemma vvRun_succ (p0 q0 dt : ℚ) (N : ℕ) :
    vvRun p0 q0 dt (N + 1) = vvIter dt (vvRun p0 q0 dt N) := by
  unfold vvRun
  rw [Function.iterate_succ_apply']

lemma vvRun_fst (p0 q0 dt : ℚ) (N : ℕ) :
    (vvRun p0 q0 dt N).1 = (vvStep dt)^[N] (p0, q0) := by
  induction N with
  | zero => rfl
  | succ n ih =>
      rw [vvRun_succ, Function.iterate_succ_apply']
      simp only [vvIter, ih]

lemma plist_eq (p0 q0 dt : ℚ) (N : ℕ) :
    plist p0 q0 dt N = (List.range N).map (fun k => ((vvStep dt)^[k + 1] (p0, q0)).1) := by
  induction N with
  | zero => rfl
  | succ n ih =>
      unfold plist at ih ⊢
      rw [vvRun_succ, List.range_succ, List.map_append]
      simp only [vvIter, List.map_cons, List.map_nil]
      rw [← ih, vvRun_fst, Function.iterate_succ_apply']

lemma qlist_eq (p0 q0 dt : ℚ) (N : ℕ) :
    qlist p0 q0 dt N = (List.range N).map (fun k => ((vvStep dt)^[k + 1] (p0, q0)).2) := by
  induction N with
  | zero => rfl
  | succ n ih =>
      unfold qlist at ih ⊢
      rw [vvRun_succ, List.range_succ, List.map_append]
      simp only [vvIter, List.map_cons, List.map_nil]
      rw [← ih, vvRun_fst, Function.iterate_succ_apply']

lemma flist_eq (p0 q0 dt : ℚ) (N : ℕ) :
    flist p0 q0 dt N = (List.range N).map (fun k => f (((vvStep dt)^[k + 1] (p0, q0)).2)) := by
  induction N with
  | zero => rfl
  | succ n ih =>
      unfold flist at ih ⊢
      rw [vvRun_succ, List.range_succ, List.map_append]
      simp only [vvIter, List.map_cons, List.map_nil]
      rw [← ih, vvRun_fst, Function.iterate_succ_apply']

lemma getD_map_range {α : Type} (g : ℕ → α) (d : α) {N k : ℕ} (hk : k < N) :
    ((List.range N).map g).getD k d = g k := by
  rw [List.getD_eq_getElem?_getD, List.getElem?_map, List.getElem?_range hk]
  rfl

lemma getLastD_map_range {α : Type} (g : ℕ → α) (d : α) (N : ℕ) (hN : 1 ≤ N) :
    ((List.range N).map g).getLastD d = g (N - 1) := by
  obtain ⟨n, rfl⟩ : ∃ n, N = n + 1 := ⟨N - 1, (Nat.succ_pred_eq_of_pos hN).symm⟩
  rw [List.range_succ, List.map_append, List.map_cons, List.map_nil,
    List.getLastD_concat]
  simp

/-! ### Exact time reversal of the velocity-Verlet step -/

lemma vvStep_reverse (dt : ℚ) (s : ℚ × ℚ) :
    vvStep dt (-(vvStep dt s).1, (vvStep dt s).2) = (-s.1, s.2) := by
  simp only [vvStep, f, Prod.mk.injEq]
  constructor <;> ring

lemma vvStep_iterate_reverse (dt : ℚ) (s : ℚ × ℚ) :
    ∀ N : ℕ, (vvStep dt)^[N]
      (-((vvStep dt)^[N] s).1, ((vvStep dt)^[N] s).2) = (-s.1, s.2) := by
  intro N
  induction N generalizing s with
  | zero => rfl
  | succ n ih =>
      have h1 : (vvStep dt)^[n + 1] s = (vvStep dt)^[n] (vvStep dt s) :=
        Function.iterate_succ_apply _ _ _
      rw [Function.iterate_succ_apply', h1]
      have h2 := ih (vvStep dt s)
      rw [h2, vvStep_reverse]

lemma vvStep_iterate_reverse_upto (dt : ℚ) (s : ℚ × ℚ) {k N : ℕ} (hk : k ≤ N) :
    (vvStep dt)^[k] (-((vvStep dt)^[N] s).1, ((vvStep dt)^[N] s).2) =
      (-((vvStep dt)^[N - k] s).1, ((vvStep dt)^[N - k] s).2) := by
  have hsplit : (vvStep dt)^[N] s = (vvStep dt)^[k] ((vvStep dt)^[N - k] s) := by
    rw [← Function.iterate_add_apply, Nat.add_sub_cancel' hk]
  rw [hsplit, vvStep_iterate_reverse dt ((vvStep dt)^[N - k] s) k]

lemma plist_getLastD (p0 q0 dt : ℚ) {N : ℕ} (hN : 1 ≤ N) :
    (plist p0 q0 dt N).getLastD 0 = ((vvStep dt)^[N] (p0, q0)).1 := by
  rw [plist_eq]
  rw [getLastD_map_range (fun k => ((vvStep dt)^[k + 1] (p0, q0)).1) 0 N hN,
    Nat.sub_add_cancel hN]

lemma qlist_getLastD (p0 q0 dt : ℚ) {N : ℕ} (hN : 1 ≤ N) :
    (qlist p0 q0 dt N).getLastD 0 = ((vvStep dt)^[N] (p0, q0)).2 := by
  rw [qlist_eq]
  rw [getLastD_map_range (fun k => ((vvStep dt)^[k + 1] (p0, q0)).2) 0 N hN,
    Nat.sub_add_cancel hN]

lemma inv_qlist_reverse_getD (p0 q0 dt : ℚ) {N k : ℕ} (hk : k < N) :
    (inv_qlist p0 q0 dt N).reverse.getD k 0 = ((vvStep dt)^[k] (p0, q0)).2 := by
  have hN : 1 ≤ N := Nat.one_le_of_lt (Nat.lt_of_le_of_lt (Nat.zero_le k) hk)
  unfold inv_qlist invRun
  rw [plist_getLastD p0 q0 dt hN, qlist_getLastD p0 q0 dt hN]
  have hql := qlist_eq (-((vvStep dt)^[N] (p0, q0)).1) ((vvStep dt)^[N] (p0, q0)).2 dt N
  unfold qlist at hql
  rw [hql]
  have hlen : ((List.range N).map
      (fun j => ((vvStep dt)^[j + 1]
        (-((vvStep dt)^[N] (p0, q0)).1, ((vvStep dt)^[N] (p0, q0)).2)).2)).length = N := by
    simp
  rw [List.getD_eq_getElem?_getD, List.getElem?_reverse (by rw [hlen]; exact hk), hlen,
    List.getElem?_map, List.getElem?_range (by omega)]
  have harg : N - 1 - k + 1 = N - k := by omega
  simp only [Option.map_some', Option.getD_some, harg]
  rw [vvStep_iterate_reverse_upto dt (p0, q0) (Nat.sub_le N k),
    Nat.sub_sub_self (Nat.le_of_lt hk)]

/-! ### Exact invariant of the velocity-Verlet map for `f(q) = -q` -/

lemma vvInvariant_step (dt : ℚ) (s : ℚ × ℚ) :
    (vvStep dt s).1 ^ 2 + (1 - dt ^ 2 / 4) * (vvStep dt s).2 ^ 2 =
      s.1 ^ 2 + (1 - dt ^ 2 / 4) * s.2 ^ 2 := by
  simp only [vvStep, f]
  ring

lemma vvInvariant_iterate (dt : ℚ) (s : ℚ × ℚ) (k : ℕ) :
    ((vvStep dt)^[k] s).1 ^ 2 + (1 - dt ^ 2 / 4) * ((vvStep dt)^[k] s).2 ^ 2 =
      s.1 ^ 2 + (1 - dt ^ 2 / 4) * s.2 ^ 2 := by
  induction k with
  | zero => rfl
  | succ n ih => rw [Function.iterate_succ_apply', vvInvariant_step]; exact ih

lemma energy_drift_bound (p0 q0 dt : ℚ) (k : ℕ) (hdt : 0 < dt) (hdt1 : dt ≤ 1) :
    |energy ((vvStep dt)^[k] (p0, q0)) - energy (p0, q0)| ≤
      dt ^ 2 * (p0 ^ 2 + q0 ^ 2) / 6 := by
  set u := (vvStep dt)^[k] (p0, q0) with hu
  have hinv := vvInvariant_iterate dt (p0, q0) k
  rw [← hu] at hinv
  have hd2 : dt ^ 2 ≤ 1 := by nlinarith
  have hd2n : 0 ≤ dt ^ 2 := sq_nonneg dt
  have hc : (3 : ℚ) / 4 ≤ 1 - dt ^ 2 / 4 := by linarith
  have hub : (1 - dt ^ 2 / 4) * u.2 ^ 2 ≤ p0 ^ 2 + q0 ^ 2 := by
    nlinarith [sq_nonneg u.1, sq_nonneg q0]
  have hu2 : u.2 ^ 2 ≤ 4 * (p0 ^ 2 + q0 ^ 2) / 3 := by
    nlinarith [mul_nonneg (by linarith : (0 : ℚ) ≤ 1 - dt ^ 2 / 4 - 3 / 4) (sq_nonneg u.2)]
  have hdiff : energy u - energy (p0, q0) = dt ^ 2 / 8 * (u.2 ^ 2 - q0 ^ 2) := by
    simp only [energy]
    linear_combination hinv / 2
  rw [hdiff, abs_le]
  constructor
  · nlinarith [mul_nonneg hd2n (sq_nonneg u.2), mul_nonneg hd2n (sq_nonneg p0),
      mul_nonneg hd2n (sq_nonneg q0)]
  · nlinarith [mul_le_mul_of_nonneg_left hu2 (by positivity : (0 : ℚ) ≤ dt ^ 2 / 8),
      mul_nonneg hd2n (sq_nonneg q0), mul_nonneg hd2n (sq_nonneg p0)]

/-! ## Claims about the integrator -/

/-- Claim C5: for every `p0`, `q0`, `dt > 0` and total time `tmax`, the
integrator performs exactly `N = int(tmax/dt)` steps; the three recorded
sequences all have length `N` and their `k`-th entries are the post-step
momentum, position and force of the `(k+1)`-fold iterated velocity-Verlet
step (half-kick, drift, half-kick, in that order; the initial state is not
recorded); with `p0 = 0`, `q0 = 1`, `dt = 0.01`, `N = 1` the single recorded
position is `0.99995`. -/
theorem claim_C5_contract (p0 q0 dt tmax : ℚ) (_hdt : 0 < dt) :
    (plist p0 q0 dt (nsteps tmax dt)).length = nsteps tmax dt ∧
    (qlist p0 q0 dt (nsteps tmax dt)).length = nsteps tmax dt ∧
    (flist p0 q0 dt (nsteps tmax dt)).length = nsteps tmax dt ∧
    (∀ k < nsteps tmax dt,
      (plist p0 q0 dt (nsteps tmax dt)).getD k 0 = ((vvStep dt)^[k + 1] (p0, q0)).1 ∧
      (qlist p0 q0 dt (nsteps tmax dt)).getD k 0 = ((vvStep dt)^[k + 1] (p0, q0)).2 ∧
      (flist p0 q0 dt (nsteps tmax dt)).getD k 0 = f (((vvStep dt)^[k + 1] (p0, q0)).2)) ∧
    qlist 0 1 (1 / 100) 1 = [19999 / 20000] := by
  refine ⟨?_, ?_, ?_, fun k hk => ⟨?_, ?_, ?_⟩, ?_⟩
  · rw [plist_eq]; simp
  · rw [qlist_eq]; simp
  · rw [flist_eq]; simp
  · rw [plist_eq, getD_map_range _ 0 hk]
  · rw [qlist_eq, getD_map_range _ 0 hk]
  · rw [flist_eq, getD_map_range _ 0 hk]
  · rw [qlist_eq]
    simp only [List.range_succ, List.range_zero, List.nil_append, List.map_cons,
      List.map_nil, zero_add, Function.iterate_one]
    norm_num [vvStep, f]

/-- Witness for C5 at `p0 = 0`, `q0 = 1`, `dt = 1/100`, `tmax = 1/100`
(so `N = int(tmax/dt) = 1`). -/
theorem claim_C5_contract_witness :
    0 < (1 : ℚ) / 100 ∧
    ((plist 0 1 (1 / 100) (nsteps (1 / 100) (1 / 100))).length =
        nsteps (1 / 100) (1 / 100) ∧
      (qlist 0 1 (1 / 100) (nsteps (1 / 100) (1 / 100))).length =
        nsteps (1 / 100) (1 / 100) ∧
      (flist 0 1 (1 / 100) (nsteps (1 / 100) (1 / 100))).length =
        nsteps (1 / 100) (1 / 100) ∧
      (∀ k < nsteps (1 / 100) (1 / 100),
        (plist 0 1 (1 / 100) (nsteps (1 / 100) (1 / 100))).getD k 0 =
          ((vvStep (1 / 100))^[k + 1] (0, 1)).1 ∧
        (qlist 0 1 (1 / 100) (nsteps (1 / 100) (1 / 100))).getD k 0 =
          ((vvStep (1 / 100))^[k + 1] (0, 1)).2 ∧
        (flist 0 1 (1 / 100) (nsteps (1 / 100) (1 / 100))).getD k 0 =
          f (((vvStep (1 / 100))^[k + 1] (0, 1)).2)) ∧
      qlist 0 1 (1 / 100) 1 = [19999 / 20000]) :=
  ⟨by norm_num, claim_C5_contract 0 1 (1 / 100) (1 / 100) (by norm_num)⟩

/-- Claim C8: in exact arithmetic one velocity-Verlet step with `f(q) = -q`
maps `(-p_{k+1}, q_{k+1})` back to `(-p_k, q_k)`; consequently the reversed
run's position sequence read backwards is exactly `(q_0, ..., q_{N-1})`
while the forward output is `(q_1, ..., q_N)` — the forward sequence shifted
by exactly one step. -/
theorem claim_C8_time_reversal :
    (∀ (dt p q : ℚ), vvStep dt (-(vvStep dt (p, q)).1, (vvStep dt (p, q)).2) = (-p, q)) ∧
    ∀ (p0 q0 dt : ℚ) (N k : ℕ), k < N →
      (inv_qlist p0 q0 dt N).reverse.getD k 0 = ((vvStep dt)^[k] (p0, q0)).2 ∧
      (qlist p0 q0 dt N).getD k 0 = ((vvStep dt)^[k + 1] (p0, q0)).2 := by
  refine ⟨fun dt p q => vvStep_reverse dt (p, q), fun p0 q0 dt N k hk => ⟨?_, ?_⟩⟩
  · exact inv_qlist_reverse_getD p0 q0 dt hk
  · rw [qlist_eq, getD_map_range _ 0 hk]

/-- Witness for C8 at `p0 = 2`, `q0 = 3`, `dt = 1`, `N = 2`, `k = 1`. -/
theorem claim_C8_time_reversal_witness :
    (1 : ℕ) < 2 ∧
    ((inv_qlist 2 3 1 2).reverse.getD 1 0 = ((vvStep 1)^[1] (2, 3)).2 ∧
      (qlist 2 3 1 2).getD 1 0 = ((vvStep 1)^[1 + 1] (2, 3)).2) :=
  ⟨by decide, (claim_C8_time_reversal.2 2 3 1 2 1 (by decide))⟩

/-- Claim C1 (counterexample): at `p0 = 0`, `q0 = 1`, `dt = 0.01`,
`N = 10000`, the reversed run's position sequence read backwards does NOT
reproduce the forward position sequence elementwise to within `1e-10`: the
very first elements are `q_0 = 1` and `q_1 = 0.99995`, which differ by
`5e-5`. -/
theorem claim_C1_counterexample :
    ¬ ∀ k < 10000, |(inv_qlist 0 1 (1 / 100) 10000).reverse.getD k 0 -
        (qlist 0 1 (1 / 100) 10000).getD k 0| ≤ 1 / 10 ^ 10 := by
  intro h
  have h0 := h 0 (by norm_num)
  rw [inv_qlist_reverse_getD 0 1 (1 / 100) (by norm_num : (0 : ℕ) < 10000)] at h0
  rw [qlist_eq, getD_map_range _ 0 (by norm_num : (0 : ℕ) < 10000)] at h0
  simp only [Function.iterate_zero, id_eq, zero_add, Function.iterate_one] at h0
  norm_num [vvStep, f] at h0
  rw [abs_of_pos (by norm_num : (0 : ℚ) < 1 / 20000)] at h0
  norm_num at h0

/-- Claim C1 (amended): in exact arithmetic the reversed run initialized
from `(-p_N, q_N)`, read backwards, reproduces the forward trajectory's
position sequence shifted back by one step: its `k`-th element is `q_k`
(the position after `k` forward steps), whereas the forward output's `k`-th
element is `q_{k+1}`; the two sequences agree only up to this one-step
offset, not elementwise. -/
theorem claim_C1_reversal_shifted (p0 q0 dt : ℚ) (N k : ℕ) (hk : k < N) :
    (inv_qlist p0 q0 dt N).reverse.getD k 0 = ((vvStep dt)^[k] (p0, q0)).2 ∧
    (qlist p0 q0 dt N).getD k 0 = ((vvStep dt)^[k + 1] (p0, q0)).2 := by
  refine ⟨inv_qlist_reverse_getD p0 q0 dt hk, ?_⟩
  rw [qlist_eq, getD_map_range _ 0 hk]

/-- Witness for the amended C1 at `p0 = 1`, `q0 = 0`, `dt = 1`, `N = 3`,
`k = 2`. -/
theorem claim_C1_reversal_shifted_witness :
    (2 : ℕ) < 3 ∧
    ((inv_qlist 1 0 1 3).reverse.getD 2 0 = ((vvStep 1)^[2] (1, 0)).2 ∧
      (qlist 1 0 1 3).getD 2 0 = ((vvStep 1)^[2 + 1] (1, 0)).2) :=
  ⟨by decide, claim_C1_reversal_shifted 1 0 1 3 2 (by decide)⟩

/-- Claim C7: for the harmonic force `f(q) = -q` the velocity-Verlet total
energy `p^2/2 + q^2/2` stays within `O(dt^2)` of its initial value — for
`0 < dt ≤ 1` every iterate's energy is within `dt^2 (p0^2 + q0^2) / 6` of
the initial energy; concretely, for `dt = 0.01`, `p0 = 1`, `q0 = 0` and
10000 recorded steps, every recorded state's energy (hence the final one)
equals the initial energy to within `1e-4`. -/
theorem claim_C7_energy_conservation :
    (∀ (p0 q0 dt : ℚ) (k : ℕ), 0 < dt → dt ≤ 1 →
      |energy ((vvStep dt)^[k] (p0, q0)) - energy (p0, q0)| ≤
        dt ^ 2 * (p0 ^ 2 + q0 ^ 2) / 6) ∧
    ∀ k < 10000,
      |((plist 1 0 (1 / 100) 10000).getD k 0) ^ 2 / 2 +
          ((qlist 1 0 (1 / 100) 10000).getD k 0) ^ 2 / 2 - energy (1, 0)| ≤
        1 / 10000 := by
  constructor
  · intro p0 q0 dt k hdt hdt1
    exact energy_drift_bound p0 q0 dt k hdt hdt1
  · intro k hk
    rw [plist_eq, qlist_eq, getD_map_range _ 0 hk, getD_map_range _ 0 hk]
    have hb := energy_drift_bound 1 0 (1 / 100) (k + 1) (by norm_num) (by norm_num)
    unfold energy at hb ⊢
    have : ((1 : ℚ) / 100) ^ 2 * ((1 : ℚ) ^ 2 + (0 : ℚ) ^ 2) / 6 ≤ 1 / 10000 := by
      norm_num
    calc |((vvStep (1 / 100))^[k + 1] (1, 0)).1 ^ 2 / 2 +
            ((vvStep (1 / 100))^[k + 1] (1, 0)).2 ^ 2 / 2 -
            ((1 : ℚ) ^ 2 / 2 + (0 : ℚ) ^ 2 / 2)| ≤
          (1 / 100) ^ 2 * ((1 : ℚ) ^ 2 + (0 : ℚ) ^ 2) / 6 := hb
      _ ≤ 1 / 10000 := this

/-- Witness for C7 at `p0 = 1`, `q0 = 2`, `dt = 1/2`, `k = 3`, and at
`k = 5` for the concrete trajectory. -/
theorem claim_C7_energy_conservation_witness :
    (0 < (1 : ℚ) / 2 ∧ (1 : ℚ) / 2 ≤ 1 ∧
      |energy ((vvStep (1 / 2))^[3] (1, 2)) - energy (1, 2)| ≤
        (1 / 2) ^ 2 * ((1 : ℚ) ^ 2 + (2 : ℚ) ^ 2) / 6) ∧
    ((5 : ℕ) < 10000 ∧
      |((plist 1 0 (1 / 100) 10000).getD 5 0) ^ 2 / 2 +
          ((qlist 1 0 (1 / 100) 10000).getD 5 0) ^ 2 / 2 - energy (1, 0)| ≤
        1 / 10000) :=
  ⟨⟨by norm_num, by norm_num,
      claim_C7_energy_conservation.1 1 2 (1 / 2) 3 (by norm_num) (by norm_num)⟩,
    ⟨by norm_num, claim_C7_energy_conservation.2 5 (by norm_num)⟩⟩

/-! ## Quantum time-correlation evaluators (notebook Exercise 1)

Source constants: `m = 1`, `hbar = 1`, `beta = 1` (reduced units). -/

/-- Particle mass `m = 1`. -/
def m : ℝ := 1

/-- Planck constant `hbar = 1`. -/
def hbar : ℝ := 1

/-- Inverse temperature `beta = 1`. -/
def beta : ℝ := 1

/-- `Ei(i, omega, return_zero)`: energy of the `i`-th eigenstate of the
harmonic oscillator, `(i + 1/2)*hbar*omega` with the zero-point offset and
`i*hbar*omega` without. -/
noncomputable def Ei (i : ℕ) (ω : ℝ := 1) (return_zero : Bool := false) : ℝ :=
  if return_zero then ((i : ℝ) + 1 / 2) * hbar * ω else (i : ℝ) * hbar * ω

/-- `qij(i, j, omega)`: position matrix element `<i| q |j>`. The source tests
`i == j - 1` on Python integers, which for `i, j ≥ 0` is `i + 1 == j`, then
`i == j + 1`; anything else returns `0`. -/
noncomputable def qij (i j : ℕ) (ω : ℝ := 1) : ℝ :=
  if i + 1 = j then Real.sqrt (hbar / (2 * m * ω)) * Real.sqrt (j : ℝ)
  else if i = j + 1 then Real.sqrt (hbar / (2 * m * ω)) * Real.sqrt ((j : ℝ) + 1)
  else 0

/-- `Cqq_std(t, omega, i_max)`: the standard quantum time-correlation
function. Note the source passes `omega` to `Ei` but calls `qij(i, j)` and
`qij(j, i)` with the DEFAULT `omega = 1`; the embedding mirrors this. For
`i_max = 0` the source returns `t * 0`. -/
noncomputable def Cqq_std (t : ℝ) (ω : ℝ := 1) (i_max : ℕ := 100) : ℂ :=
  let rc : ℂ := ∑ i ∈ Finset.range (i_max + 1),
    (∑ j ∈ Finset.range (i + 2),
        Complex.exp (-Complex.I * ((Ei i ω - Ei j ω : ℝ) : ℂ) * (t : ℂ) / (hbar : ℂ)) *
          ((qij i j : ℝ) : ℂ) * ((qij j i : ℝ) : ℂ)) *
      ((Real.exp (-beta * Ei i ω) : ℝ) : ℂ)
  let rz : ℝ := ∑ i ∈ Finset.range (i_max + 1), Real.exp (-beta * Ei i ω)
  if 0 < i_max then rc / ((rz : ℝ) : ℂ) else 0

/-- Value computed by `Cqq_kubo` when the quadrature grid is valid
(`lgrid ≥ 2` points). The grid is `np.linspace(0, beta, L)`, whose points
are `k * beta/(L-1)` and whose spacing `lgrid[1] - lgrid[0]` is
`beta/(L-1)`. The source calls `Ei` and `qij` with the DEFAULT `omega = 1`
throughout; its `omega` argument is never read. -/
noncomputable def Cqq_kubo_val (t : ℝ) (i_max L : ℕ) : ℂ :=
  let dl : ℝ := beta / ((L : ℝ) - 1)
  let rcqq : ℂ := ∑ i ∈ Finset.range (i_max + 1), ∑ j ∈ Finset.range (i + 2),
    (((∑ k ∈ Finset.range L, Real.exp (-((k : ℝ) * dl) * (Ei j - Ei i))) * dl / beta : ℝ) : ℂ) *
      ((Real.exp (-beta * Ei i) : ℝ) : ℂ) *
      Complex.exp (-Complex.I * ((Ei i - Ei j : ℝ) : ℂ) * (t : ℂ) / (hbar : ℂ)) *
      ((qij i j : ℝ) : ℂ) * ((qij j i : ℝ) : ℂ)
  let rz : ℝ := ∑ i ∈ Finset.range (i_max + 1), Real.exp (-beta * Ei i)
  if 0 < i_max then rcqq / ((rz : ℝ) : ℂ) else 0

/-- `Cqq_kubo(t, omega, i_max, lgrid)`: the Kubo-transformed correlation
function. Reading the spacing `lgrid[1] - lgrid[0]` of `np.linspace(0, beta, L)`
raises `IndexError` whenever the grid has fewer than two points, and this
happens inside the double loop before any result is produced; the abnormal
exit is embedded as `none`. The `omega` parameter is accepted but unused by
the source body. -/
noncomputable def Cqq_kubo (t : ℝ) (ω : ℝ := 1) (i_max : ℕ := 100) (L : ℕ := 1000) :
    Option ℂ :=
  if L < 2 then none else some (Cqq_kubo_val t i_max L)

/-- `Cqq_std` applied to an array of times (NumPy broadcasts the arithmetic
elementwise over `t`; `t * 0` is the zero array of `t`'s shape). -/
noncomputable def Cqq_std_arr (ts : List ℝ) (ω : ℝ) (i_max : ℕ) : List ℂ :=
  ts.map fun t => Cqq_std t ω i_max

/-- `Cqq_kubo` applied to an array of times: one call either raises
(`none`) as soon as the spacing is read, or broadcasts over `t`. -/
noncomputable def Cqq_kubo_arr (ts : List ℝ) (ω : ℝ) (i_max L : ℕ) : Option (List ℂ) :=
  if L < 2 then none else some (ts.map fun t => Cqq_kubo_val t i_max L)

/-- `boltzweight(p, q, beta)` from the notebook. Its body is
`np.exp(-beta * (ps**2 / 2 + qs**2 / 2))` over the enclosing global arrays
`ps` and `qs` (passed here explicitly, as the embedding of Python's global
scope); the `p` and `q` parameters never occur in the body. -/
noncomputable def boltzweight (p q beta : ℝ) (ps qs : List ℝ) : List ℝ :=
  List.zipWith (fun a b => Real.exp (-beta * (a ^ 2 / 2 + b ^ 2 / 2))) ps qs

/-! ## Claims about the quantum evaluators -/

/-- Claim C3: at `i_max = 0` both evaluators return an all-zero array of the
same shape as `t` (the Kubo variant at its default 1000-point grid). -/
theorem claim_C3_imax_zero (ts : List ℝ) (ω : ℝ) :
    Cqq_std_arr ts ω 0 = ts.map (fun _ => 0) ∧
    (Cqq_std_arr ts ω 0).length = ts.length ∧
    Cqq_kubo_arr ts ω 0 1000 = some (ts.map fun _ => 0) ∧
    ∀ out, Cqq_kubo_arr ts ω 0 1000 = some out → out.length = ts.length := by
  have hstd : ∀ t : ℝ, Cqq_std t ω 0 = 0 := by
    intro t
    simp [Cqq_std]
  have hkubo : ∀ t : ℝ, Cqq_kubo_val t 0 1000 = 0 := by
    intro t
    simp [Cqq_kubo_val]
  refine ⟨?_, ?_, ?_, ?_⟩
  · unfold Cqq_std_arr
    exact List.map_congr_left fun t _ => hstd t
  · simp [Cqq_std_arr]
  · unfold Cqq_kubo_arr
    rw [if_neg (by norm_num)]
    exact congrArg some (List.map_congr_left fun t _ => hkubo t)
  · intro out hout
    unfold Cqq_kubo_arr at hout
    rw [if_neg (by norm_num)] at hout
    cases hout
    simp

/-- Claim C10: `Cqq_kubo` on a one-point grid (`lgrid = 1`) aborts with
`IndexError` (embedded as `none`) before returning anything, for every time
array and every `i_max`, including `i_max = 0`. -/
theorem claim_C10_one_point_grid (t : ℝ) (ts : List ℝ) (ω : ℝ) (i_max : ℕ) :
    Cqq_kubo t ω i_max 1 = none ∧ Cqq_kubo_arr ts ω i_max 1 = none ∧
    Cqq_kubo t ω 0 1 = none := by
  refine ⟨?_, ?_, ?_⟩ <;> simp [Cqq_kubo, Cqq_kubo_arr]

/-- Claim C9: `boltzweight` never reads its `p` and `q` parameters — its
result over the ambient global arrays `ps`, `qs` is unchanged under
arbitrary replacement of `p` and `q`. -/
theorem claim_C9_boltzweight_ignores_args (p q p' q' beta : ℝ) (ps qs : List ℝ) :
    boltzweight p q beta ps qs = boltzweight p' q' beta ps qs := rfl

lemma qij_symm (i j : ℕ) (ω : ℝ) : qij i j ω = qij j i ω := by
  unfold qij
  rcases Nat.lt_trichotomy i j with h | h | h
  · rcases eq_or_ne (i + 1) j with hij | hij
    · rw [if_pos hij, if_neg (by omega), if_pos (by omega)]
      subst hij
      norm_num
    · rw [if_neg hij, if_neg (by omega), if_neg (by omega), if_neg (by omega)]
  · subst h
    rfl
  · rcases eq_or_ne i (j + 1) with hij | hij
    · rw [if_neg (by omega), if_pos hij, if_pos (by omega)]
      subst hij
      norm_num
    · rw [if_neg (by omega), if_neg hij, if_neg (by omega), if_neg (by omega)]

lemma qij_select {i j : ℕ} (ω : ℝ) (h : ((i : ℤ) - j).natAbs ≠ 1) : qij i j ω = 0 := by
  unfold qij
  rw [if_neg (by omega), if_neg (by omega)]

lemma qij_value {i j : ℕ} (ω : ℝ) (h : ((i : ℤ) - j).natAbs = 1) :
    qij i j ω = Real.sqrt (hbar / (2 * m * ω)) * Real.sqrt (max i j : ℕ) := by
  unfold qij
  rcases Nat.lt_trichotomy i j with hlt | heq | hgt
  · have hij : i + 1 = j := by omega
    rw [if_pos hij]
    have : max i j = j := by omega
    rw [this]
  · omega
  · have hij : i = j + 1 := by omega
    rw [if_neg (by omega), if_pos hij]
    have : max i j = j + 1 := by omega
    rw [this]
    norm_num

/-- Claim C4: the position matrix element is symmetric (`qij i j = qij j i`),
obeys the selection rule (`qij i j = 0` whenever `|i - j| ≠ 1`), equals
`sqrt(hbar/(2 m omega)) * sqrt(max i j)` whenever `|i - j| = 1`; in
particular `qij 1 2 1 = sqrt(1/2) * sqrt 2 = 1` and `qij 0 0 = 0`. -/
theorem claim_C4_matrix_elements (i j : ℕ) (ω : ℝ) (hω : 0 < ω) :
    qij i j ω = qij j i ω ∧
    (((i : ℤ) - j).natAbs ≠ 1 → qij i j ω = 0) ∧
    (((i : ℤ) - j).natAbs = 1 →
      qij i j ω = Real.sqrt (hbar / (2 * m * ω)) * Real.sqrt (max i j : ℕ)) ∧
    qij 1 2 1 = 1 ∧ qij 0 0 1 = 0 := by
  refine ⟨qij_symm i j ω, fun h => qij_select ω h, fun h => qij_value ω h, ?_, ?_⟩
  · unfold qij
    rw [if_pos rfl]
    rw [show ((2 : ℕ) : ℝ) = 2 by norm_num, hbar, m]
    rw [show (1 : ℝ) / (2 * 1 * 1) = 1 / 2 by norm_num]
    rw [← Real.sqrt_mul (by norm_num : (0 : ℝ) ≤ 1 / 2)]
    norm_num
  · unfold qij
    norm_num

/-- Witness for C4 at `i = 1`, `j = 2`, `ω = 1`. -/
theorem claim_C4_matrix_elements_witness :
    0 < (1 : ℝ) ∧
    (qij 1 2 1 = qij 2 1 1 ∧
      (((1 : ℤ) - 2).natAbs ≠ 1 → qij 1 2 1 = 0) ∧
      (((1 : ℤ) - 2).natAbs = 1 →
        qij 1 2 1 = Real.sqrt (hbar / (2 * m * 1)) * Real.sqrt (max 1 2 : ℕ)) ∧
      qij 1 2 1 = 1 ∧ qij 0 0 1 = 0) :=
  ⟨by norm_num, claim_C4_matrix_elements 1 2 1 (by norm_num)⟩

lemma Cqq_std_zero (ω : ℝ) {i_max : ℕ} (h : 0 < i_max) :
    Cqq_std 0 ω i_max =
      (((∑ i ∈ Finset.range (i_max + 1),
            (∑ j ∈ Finset.range (i + 2), qij i j * qij j i) *
              Real.exp (-beta * Ei i ω)) /
          ∑ i ∈ Finset.range (i_max + 1), Real.exp (-beta * Ei i ω) : ℝ) : ℂ) := by
  unfold Cqq_std
  simp only [if_pos h, Complex.ofReal_zero, mul_zero, zero_div, Complex.exp_zero, one_mul]
  push_cast
  rfl

/-- Claim C6: for every `ω > 0` and truncation order `i_max ≥ 1`, the
standard correlation function at `t = 0` has zero imaginary part and
non-negative real part. -/
theorem claim_C6_std_t0_real_nonneg (ω : ℝ) (i_max : ℕ) (hω : 0 < ω)
    (h1 : 1 ≤ i_max) :
    (Cqq_std 0 ω i_max).im = 0 ∧ 0 ≤ (Cqq_std 0 ω i_max).re := by
  rw [Cqq_std_zero ω (h1 : 0 < i_max)]
  refine ⟨Complex.ofReal_im _, ?_⟩
  rw [Complex.ofReal_re]
  apply div_nonneg
  · apply Finset.sum_nonneg
    intro i _
    apply mul_nonneg
    · apply Finset.sum_nonneg
      intro j _
      rw [qij_symm j i 1]
      exact mul_self_nonneg _
    · exact (Real.exp_pos _).le
  · exact Finset.sum_nonneg fun i _ => (Real.exp_pos _).le

/-- Witness for C6 at `ω = 1`, `i_max = 1`. -/
theorem claim_C6_std_t0_real_nonneg_witness :
    0 < (1 : ℝ) ∧ 1 ≤ 1 ∧ ((Cqq_std 0 1 1).im = 0 ∧ 0 ≤ (Cqq_std 0 1 1).re) :=
  ⟨by norm_num, le_refl 1, claim_C6_std_t0_real_nonneg 1 1 (by norm_num) (le_refl 1)⟩

/-- Modelled from the spec: the reference eigenstate sum of claim C2, in
which BOTH the exponentials' energies and the position matrix elements are
parameterized by `omega` (`q_ij(omega) * q_ji(omega)`), normalized by the
truncated partition sum over the same state range. The source's `Cqq_std`
is compared against this definition. -/
noncomputable def Cqq_std_ref (t ω : ℝ) (i_max : ℕ) : ℂ :=
  (∑ i ∈ Finset.range (i_max + 1),
    (∑ j ∈ Finset.range (i + 2),
        Complex.exp (-Complex.I * ((Ei i ω - Ei j ω : ℝ) : ℂ) * (t : ℂ) / (hbar : ℂ)) *
          ((qij i j ω : ℝ) : ℂ) * ((qij j i ω : ℝ) : ℂ)) *
      ((Real.exp (-beta * Ei i ω) : ℝ) : ℂ)) /
    ((∑ i ∈ Finset.range (i_max + 1), Real.exp (-beta * Ei i ω) : ℝ) : ℂ)

lemma qij_01 (ω : ℝ) : qij 0 1 ω = Real.sqrt (hbar / (2 * m * ω)) := by
  unfold qij
  rw [if_pos rfl]
  norm_num

lemma qij_10 (ω : ℝ) : qij 1 0 ω = Real.sqrt (hbar / (2 * m * ω)) := by
  unfold qij
  rw [if_neg (by omega), if_pos rfl]
  norm_num

lemma qij_12 (ω : ℝ) : qij 1 2 ω = Real.sqrt (hbar / (2 * m * ω)) * Real.sqrt 2 := by
  unfold qij
  rw [if_pos rfl]
  norm_num

lemma qij_21 (ω : ℝ) : qij 2 1 ω = Real.sqrt (hbar / (2 * m * ω)) * Real.sqrt 2 := by
  unfold qij
  rw [if_neg (by omega), if_pos rfl]
  norm_num

lemma qij_00 (ω : ℝ) : qij 0 0 ω = 0 := by
  unfold qij
  rw [if_neg (by omega), if_neg (by omega)]

lemma qij_11 (ω : ℝ) : qij 1 1 ω = 0 := by
  unfold qij
  rw [if_neg (by omega), if_neg (by omega)]

lemma qij_prod_01 (ω : ℝ) (hω : 0 < ω) : qij 0 1 ω * qij 1 0 ω = 1 / (2 * ω) := by
  rw [qij_01, qij_10, Real.mul_self_sqrt (by rw [hbar, m]; positivity), hbar, m]
  norm_num

lemma qij_prod_12 (ω : ℝ) (hω : 0 < ω) : qij 1 2 ω * qij 2 1 ω = 1 / ω := by
  rw [qij_12, qij_21]
  rw [show Real.sqrt (hbar / (2 * m * ω)) * Real.sqrt 2 *
      (Real.sqrt (hbar / (2 * m * ω)) * Real.sqrt 2) =
      Real.sqrt (hbar / (2 * m * ω)) * Real.sqrt (hbar / (2 * m * ω)) *
        (Real.sqrt 2 * Real.sqrt 2) from by ring]
  rw [Real.mul_self_sqrt (by rw [hbar, m]; positivity),
    Real.mul_self_sqrt (by norm_num : (0 : ℝ) ≤ 2), hbar, m]
  field_simp

lemma Cqq_std_ref_zero (ω : ℝ) (i_max : ℕ) :
    Cqq_std_ref 0 ω i_max =
      (((∑ i ∈ Finset.range (i_max + 1),
            (∑ j ∈ Finset.range (i + 2), qij i j ω * qij j i ω) *
              Real.exp (-beta * Ei i ω)) /
          ∑ i ∈ Finset.range (i_max + 1), Real.exp (-beta * Ei i ω) : ℝ) : ℂ) := by
  unfold Cqq_std_ref
  simp only [Complex.ofReal_zero, mul_zero, zero_div, Complex.exp_zero, one_mul]
  push_cast
  rfl

lemma Cqq_std_at_0_4_1 :
    Cqq_std 0 4 1 = (((1 / 2 + 3 / 2 * Real.exp (-4)) / (1 + Real.exp (-4)) : ℝ) : ℂ) := by
  rw [Cqq_std_zero 4 (by norm_num), Complex.ofReal_inj]
  simp only [Finset.sum_range_succ, Finset.sum_range_zero]
  rw [qij_00 1, qij_11 1, qij_prod_01 1 one_pos,
    show qij 1 0 1 * qij 0 1 1 = 1 / (2 * 1) from by
      rw [mul_comm]; exact qij_prod_01 1 one_pos,
    qij_prod_12 1 one_pos]
  norm_num [Ei, hbar, beta]

lemma Cqq_std_ref_at_0_4_1 :
    Cqq_std_ref 0 4 1 =
      (((1 / 8 + 3 / 8 * Real.exp (-4)) / (1 + Real.exp (-4)) : ℝ) : ℂ) := by
  rw [Cqq_std_ref_zero 4 1, Complex.ofReal_inj]
  simp only [Finset.sum_range_succ, Finset.sum_range_zero]
  rw [qij_00 4, qij_11 4, qij_prod_01 4 (by norm_num),
    show qij 1 0 4 * qij 0 1 4 = 1 / (2 * 4) from by
      rw [mul_comm]; exact qij_prod_01 4 (by norm_num),
    qij_prod_12 4 (by norm_num)]
  norm_num [Ei, hbar, beta]

/-- Claim C2 (refuted — code bug): the evaluators do NOT return the
ω-parameterized reference sum. `Cqq_std` passes `omega` to the energies
but evaluates the matrix elements at the default `omega = 1`, so at
`t = 0`, `omega = 4`, `i_max = 1` it differs from the spec's reference sum
`Cqq_std_ref`; and `Cqq_kubo` never reads its `omega` argument, so its
result is identical for any two values of `omega`. -/
theorem claim_C2_omega_dropped :
    Cqq_std 0 4 1 ≠ Cqq_std_ref 0 4 1 ∧
    ∀ (t ω ω' : ℝ) (i_max L : ℕ), Cqq_kubo t ω i_max L = Cqq_kubo t ω' i_max L := by
  constructor
  · rw [Cqq_std_at_0_4_1, Cqq_std_ref_at_0_4_1]
    intro heq
    rw [Complex.ofReal_inj] at heq
    have hx : (0 : ℝ) < Real.exp (-4) := Real.exp_pos _
    have hden : (0 : ℝ) < 1 + Real.exp (-4) := by linarith
    rw [div_eq_div_iff hden.ne' hden.ne'] at heq
    nlinarith
  · intro t ω ω' i_max L
    rfl

end RPMD
